import Mathlib

/-!
Shallow embedding of the tdctld repository (the `lunartick` library and its
`daemon` front end). Pure functions of the Rust source are translated into
executable Lean definitions:

* `chrono::DateTime<Utc>` values are modelled by `DT`, a pair of whole
  seconds since the Unix epoch and sub-second nanoseconds; subtraction of two
  instants is exact, and `Duration::num_milliseconds` truncates toward zero.
* machine integers (`i64`, `u32`) are modelled by `Int`/`Nat` with explicit
  wrap (`% 2 ^ 32`) or clamping where the Rust cast can overflow or saturate.
* `f64` values are modelled by `F`: exact rationals extended with the IEEE
  special values `+inf`, `-inf` and `nan`.  All divisions by zero and the
  `0/0` case follow the IEEE rules (`x/+0 = ±inf` for `x ≠ 0`, `0/0 = nan`);
  finite arithmetic is modelled exactly (no rounding), which is faithful on
  every code path the claims exercise, where all quantities are small
  integers and exactly representable ratios.
* the network is abstracted by a `probe` function handed to
  `NTPClient.test`, which performs the per-server dispatch of the source.
-/

/-- Model of `chrono::DateTime<Utc>`: whole seconds since the Unix epoch plus
sub-second nanoseconds.  On every code path of the repository `nanos < 10^9`. -/
structure DT where
  secs : ℤ
  nanos : ℕ
deriving DecidableEq, Repr

/-- Total nanoseconds since the Unix epoch; subtraction of two `DT`s in
`chrono` is exact signed nanosecond arithmetic. -/
def DT.toNanos (d : DT) : ℤ := d.secs * 1000000000 + d.nanos

/-- Normalisation of a signed nanosecond count back into a `DT`
(`chrono` keeps `0 ≤ nanos < 10^9`). -/
def DT.ofNanos (n : ℤ) : DT :=
  { secs := n / 1000000000, nanos := (n % 1000000000).toNat }

/-- `chrono::Duration::num_milliseconds`: the whole-millisecond value of a
signed nanosecond duration, truncated toward zero (Rust integer division). -/
def durMs (n : ℤ) : ℤ := n.tdiv 1000000

/-- `const NTP_TO_UNIX_SECONDS: i64 = 2_208_988_800` (lib.rs). -/
def NTP_TO_UNIX_SECONDS : ℤ := 2208988800

/-- `struct NTPTimestamp { seconds: u32, fraction: u32 }` (lib.rs). -/
structure NTPTimestamp where
  seconds : ℕ
  fraction : ℕ
deriving DecidableEq, Repr

/-- `impl From<NTPTimestamp> for DateTime<Utc>` (lib.rs):
`secs = seconds - NTP_TO_UNIX_SECONDS`;
`nanos = fraction * 1e9 / 2^32` computed in `f64` and truncated by `as u32`
(modelled as exact rational arithmetic followed by truncation, i.e. `Nat`
floor division). -/
def ntpToUtc (t : NTPTimestamp) : DT :=
  { secs := (t.seconds : ℤ) - NTP_TO_UNIX_SECONDS
    nanos := t.fraction * 1000000000 / 2 ^ 32 }

/-- `impl From<DateTime<Utc>> for NTPTimestamp` (lib.rs):
`seconds = (timestamp + NTP_TO_UNIX_SECONDS) as u32` (a wrapping `i64 → u32`
cast, i.e. `% 2^32`); `fraction = nanosecond * 2^32 / 1e9` computed in `f64`
and converted by the saturating truncating cast `as u32`. -/
def utcToNtp (d : DT) : NTPTimestamp :=
  { seconds := ((d.secs + NTP_TO_UNIX_SECONDS) % 2 ^ 32).toNat
    fraction := min (d.nanos * 2 ^ 32 / 1000000000) (2 ^ 32 - 1) }

/-- `struct NTPResult { t1, t2, t3, t4: DateTime<Utc> }` (lib.rs). -/
structure NTPResult where
  t1 : DT
  t2 : DT
  t3 : DT
  t4 : DT
deriving DecidableEq, Repr

/-- `NTPResult::delay` (lib.rs): `((t4 - t1) - (t3 - t2)).num_milliseconds()`. -/
def NTPResult.delay (r : NTPResult) : ℤ :=
  durMs ((r.t4.toNanos - r.t1.toNanos) - (r.t3.toNanos - r.t2.toNanos))

/-- `NTPResult::offset` (lib.rs): `self.delay().abs() / 2` in `i64`
(the operand is non-negative, so truncating division is floor division). -/
def NTPResult.offset (r : NTPResult) : ℤ :=
  ((r.delay.natAbs / 2 : ℕ) : ℤ)

/-- Model of `f64`: exact rationals plus the IEEE special values. -/
inductive F where
  | fin : ℚ → F
  | pinf : F
  | ninf : F
  | nan : F
deriving DecidableEq, Repr

/-- `f64::is_finite`. -/
def F.isFinite : F → Bool
  | .fin _ => true
  | _ => false

/-- `f64` addition on the model (finite addition exact). -/
def F.add : F → F → F
  | .fin a, .fin b => .fin (a + b)
  | .nan, _ => .nan
  | _, .nan => .nan
  | .pinf, .ninf => .nan
  | .ninf, .pinf => .nan
  | .pinf, _ => .pinf
  | _, .pinf => .pinf
  | .ninf, _ => .ninf
  | _, .ninf => .ninf

/-- `f64` multiplication on the model (finite multiplication exact,
`0 * inf = nan`). -/
def F.mul : F → F → F
  | .fin a, .fin b => .fin (a * b)
  | .nan, _ => .nan
  | _, .nan => .nan
  | .fin a, .pinf => if a = 0 then .nan else if 0 < a then .pinf else .ninf
  | .fin a, .ninf => if a = 0 then .nan else if 0 < a then .ninf else .pinf
  | .pinf, .fin b => if b = 0 then .nan else if 0 < b then .pinf else .ninf
  | .ninf, .fin b => if b = 0 then .nan else if 0 < b then .ninf else .pinf
  | .pinf, .pinf => .pinf
  | .pinf, .ninf => .ninf
  | .ninf, .pinf => .ninf
  | .ninf, .ninf => .pinf

/-- `f64` division on the model: `x / +0 = ±inf` for finite `x ≠ 0`,
`0 / 0 = nan` (the model's `fin 0` is IEEE `+0.0`, the only zero arising in
this program). -/
def F.div : F → F → F
  | .fin a, .fin b =>
    if b = 0 then
      if a = 0 then .nan else if 0 < a then .pinf else .ninf
    else .fin (a / b)
  | .nan, _ => .nan
  | _, .nan => .nan
  | .fin _, .pinf => .fin 0
  | .fin _, .ninf => .fin 0
  | .pinf, .fin b => if 0 ≤ b then .pinf else .ninf
  | .ninf, .fin b => if 0 ≤ b then .ninf else .pinf
  | .pinf, .pinf => .nan
  | .pinf, .ninf => .nan
  | .ninf, .pinf => .nan
  | .ninf, .ninf => .nan

/-- The Rust cast `i64 as f64`, modelled exactly (it is exact for every value
produced on the claims' code paths; beyond `2^53` real `f64` would round). -/
def F.ofInt (n : ℤ) : F := .fin (n : ℚ)

/-- Truncation of a rational toward zero. -/
def truncQ (q : ℚ) : ℤ := q.num.tdiv (q.den : ℤ)

/-- The Rust cast `f64 as i64`: saturating toward-zero conversion with
`NaN ↦ 0`, `+inf ↦ i64::MAX`, `-inf ↦ i64::MIN`. -/
def f64_as_i64 : F → ℤ
  | .fin q => max (-(2 ^ 63)) (min (2 ^ 63 - 1) (truncQ q))
  | .pinf => 2 ^ 63 - 1
  | .ninf => -(2 ^ 63)
  | .nan => 0

/-- The weight `1_000_000.0 / (delay * delay)` computed in `f64` inside
`TestResults::get_time_millis` (lib.rs). -/
def sampleWeight (time : NTPResult) : F :=
  (F.fin 1000000).div ((F.ofInt time.delay).mul (F.ofInt time.delay))

/-- The two `filter_map` passes of `TestResults::get_time_millis` (lib.rs):
keep the present samples, compute `(offset, weight)` in `f64`, and keep only
the pairs whose weight is finite. -/
def retainedPairs (rs : List (Option NTPResult)) : List (F × F) :=
  (rs.filterMap id).filterMap fun time =>
    if (sampleWeight time).isFinite then
      some (F.ofInt time.offset, sampleWeight time)
    else none

/-- `fn weighted_mean(values: &[f64], weights: &[f64]) -> f64` (lib.rs):
a fold accumulating `Σ v*w` and `Σ w` from `(0.0, 0.0)`, then one division. -/
def weighted_mean (values weights : List F) : F :=
  let p := (values.zip weights).foldl
    (fun acc vw => (acc.1.add (vw.1.mul vw.2), acc.2.add vw.2))
    (F.fin 0, F.fin 0)
  p.1.div p.2

/-- `TestResults::get_time_millis` (lib.rs): the sample map's values feed the
retention filter; the retained offsets and weights feed `weighted_mean`. -/
def TestResults.get_time_millis (result : List (String × Option NTPResult)) : F :=
  let pairs := retainedPairs (result.map Prod.snd)
  weighted_mean (pairs.map Prod.fst) (pairs.map Prod.snd)

/-- Specification-side view of the retention filter: the present samples of
nonzero delay, as exact rational `(offset, weight)` pairs. -/
def retainedQ (rs : List (Option NTPResult)) : List (ℚ × ℚ) :=
  ((rs.filterMap id).filter fun t => t.delay ≠ 0).map fun t =>
    ((t.offset : ℚ), 1000000 / ((t.delay : ℚ) * (t.delay : ℚ)))

/-- `Σ offset_i * w_i` over a list of rational `(offset, weight)` pairs. -/
def weightedSumQ (l : List (ℚ × ℚ)) : ℚ := (l.map fun p => p.1 * p.2).sum

/-- `Σ w_i` over a list of rational `(offset, weight)` pairs. -/
def weightSumQ (l : List (ℚ × ℚ)) : ℚ := (l.map Prod.snd).sum

/-- `enum LunartickError` (lib.rs); the payloads play no role in control
flow, so the constructors are bare. -/
inductive LunartickError where
  | parseDateTimeError
  | setError
  | ioErr
  | connectionError
  | parseTimestampError
deriving DecidableEq, Repr

/-- The fatality test of `NTPClient::test` (lib.rs):
`matches!(e, ConnectionError | ParseTimestampError)`. -/
def isFatal : LunartickError → Bool
  | .connectionError => true
  | .parseTimestampError => true
  | _ => false

/-- The per-server loop of `NTPClient::test` (lib.rs): probe each server in
order; a fatal error returns immediately, any other outcome is pushed as
`calc.ok()`. -/
def testLoop (probe : String → Except LunartickError NTPResult) :
    List String → Except LunartickError (List (Option NTPResult))
  | [] => .ok []
  | s :: rest =>
    match probe s with
    | .error e =>
      if isFatal e then .error e
      else (testLoop probe rest).map (fun ts => none :: ts)
    | .ok r => (testLoop probe rest).map (fun ts => some r :: ts)

/-- One `HashMap::insert`: replace the value at an existing key, otherwise
append the pair (the model keeps first-insertion order; `HashMap` iteration
order is unspecified and no claim depends on it). -/
def insertPair (m : List (String × Option NTPResult)) (kv : String × Option NTPResult) :
    List (String × Option NTPResult) :=
  if m.any (fun p => p.1 = kv.1) then
    m.map (fun p => if p.1 = kv.1 then (p.1, kv.2) else p)
  else m ++ [kv]

/-- `collect::<HashMap<_, _>>()` over a pair iterator: sequential insertion,
later pairs overwriting earlier pairs with the same key. -/
def fromPairs (l : List (String × Option NTPResult)) : List (String × Option NTPResult) :=
  l.foldl insertPair []

/-- `NTPClient::test` (lib.rs) with the network abstracted by `probe`:
run the loop, zip the outcomes back with the server names, and collect the
pairs into a `HashMap`. -/
def NTPClient.test (servers : List String)
    (probe : String → Except LunartickError NTPResult) :
    Except LunartickError (List (String × Option NTPResult)) :=
  (testLoop probe servers).map fun times =>
    fromPairs ((times.zip servers).map fun p => (p.2, p.1))

/-- `const NTP_MESSAGE_LENGTH: usize = 48` (lib.rs). -/
def NTP_MESSAGE_LENGTH : ℕ := 48

/-- `struct NTPMessage { data: [u8; 48] }` (lib.rs): the buffer is a
fixed-size array, modelled as a byte list that is length 48 on every code
path. -/
structure NTPMessage where
  data : List ℕ
deriving DecidableEq, Repr

/-- `NTPMessage::new` (lib.rs): `data: [0; 48]`. -/
def NTPMessage.new : NTPMessage :=
  ⟨List.replicate NTP_MESSAGE_LENGTH 0⟩

/-- `NTPMessage::client` (lib.rs): `data[0] |= 0b00_011_000; data[0] |= 0b00_000_011`. -/
def NTPMessage.client : NTPMessage :=
  let msg := NTPMessage.new
  ⟨msg.data.set 0 ((msg.data.headI.lor 24).lor 3)⟩

/-- `byteorder` big-endian `read_u32` on a byte slice: consumes four bytes,
failing (like `read_exact`) when fewer than four remain. -/
def readU32BE (l : List ℕ) : Except Unit ℕ :=
  match l with
  | b0 :: b1 :: b2 :: b3 :: _ => .ok (((b0 * 256 + b1) * 256 + b2) * 256 + b3)
  | _ => .error ()

/-- `NTPMessage::parse_timestamp` (lib.rs): read two big-endian `u32`s from
`data[i..i+8]` (in the source `data` always has 48 bytes, so the slice and
both reads always succeed for `i ∈ {32, 40}`). -/
def parse_timestamp (m : NTPMessage) (i : ℕ) : Except Unit NTPTimestamp :=
  match readU32BE ((m.data.drop i).take 8), readU32BE (((m.data.drop i).take 8).drop 4) with
  | .ok s, .ok f => .ok ⟨s, f⟩
  | _, _ => .error ()

/-- `NTPMessage::rx_time` (lib.rs): `parse_timestamp(32)`. -/
def NTPMessage.rx_time (m : NTPMessage) : Except Unit NTPTimestamp :=
  parse_timestamp m 32

/-- `NTPMessage::tx_time` (lib.rs): `parse_timestamp(40)`. -/
def NTPMessage.tx_time (m : NTPMessage) : Except Unit NTPTimestamp :=
  parse_timestamp m 40

/-- `udp.recv_from(&mut response.data)` (lib.rs): a datagram copies at most
48 bytes into the zero-initialised fixed buffer; the tail of a short
datagram leaves the buffer's existing bytes in place. -/
def recvInto (msg : NTPMessage) (packet : List ℕ) : NTPMessage :=
  ⟨(packet.take NTP_MESSAGE_LENGTH) ++ msg.data.drop (min packet.length NTP_MESSAGE_LENGTH)⟩

/-- `Clock::now_with_offset` (lib.rs): `Local::now() + ChronoDuration::milliseconds(offset as i64)`,
with the current instant passed explicitly. -/
def Clock.now_with_offset (now : DT) (offset : F) : DT :=
  DT.ofNanos (now.toNanos + f64_as_i64 offset * 1000000)

/-- The offset-application step of `sync` (daemon main.rs):
`Clock::now_with_offset(results.get_time_millis())`. -/
def sync_clock (now : DT) (results : List (String × Option NTPResult)) : DT :=
  Clock.now_with_offset now (TestResults.get_time_millis results)

/-- The synthetic sample of the spec's §8 delay/offset test:
`t1 = 0 ms, t2 = 100 ms, t3 = 110 ms, t4 = 220 ms`. -/
def sampleC1 : NTPResult :=
  { t1 := ⟨0, 0⟩, t2 := ⟨0, 100000000⟩, t3 := ⟨0, 110000000⟩, t4 := ⟨0, 220000000⟩ }

/-- A concrete sample of delay 50 ms (`t1 = t2 = t3 = 0`, `t4 = 50 ms`);
its offset is forced to 25 ms by `NTPResult::offset`. -/
def sampleD50 : NTPResult :=
  { t1 := ⟨0, 0⟩, t2 := ⟨0, 0⟩, t3 := ⟨0, 0⟩, t4 := ⟨0, 50000000⟩ }

/-- A concrete sample of delay 100 ms, hence offset 50 ms. -/
def sampleD100 : NTPResult :=
  { t1 := ⟨0, 0⟩, t2 := ⟨0, 0⟩, t3 := ⟨0, 0⟩, t4 := ⟨0, 100000000⟩ }

/-- A concrete sample of delay 0 ms (all four timestamps equal). -/
def sampleZero : NTPResult :=
  { t1 := ⟨0, 0⟩, t2 := ⟨0, 0⟩, t3 := ⟨0, 0⟩, t4 := ⟨0, 0⟩ }

/-- The sample set realising the spec's combiner test delays (50 ms and
100 ms) with the offsets the code derives from them (25 ms and 50 ms). -/
def resC2 : List (String × Option NTPResult) :=
  [("A", some sampleD50), ("B", some sampleD100)]

/-- A probe whose server `"b"` fails fatally and whose other servers fail
softly. -/
def probeFatal : String → Except LunartickError NTPResult :=
  fun s => if s = "b" then .error .connectionError else .error .ioErr

/-- A probe whose server `"a"` times out (soft failure) and whose other
servers answer with `sampleD50`. -/
def probeSoft : String → Except LunartickError NTPResult :=
  fun s => if s = "a" then .error .ioErr else .ok sampleD50

theorem F.add_fin (a b : ℚ) : (F.fin a).add (F.fin b) = F.fin (a + b) := rfl

theorem F.mul_fin (a b : ℚ) : (F.fin a).mul (F.fin b) = F.fin (a * b) := rfl

theorem F.div_fin (a b : ℚ) (h : b ≠ 0) : (F.fin a).div (F.fin b) = F.fin (a / b) := by
  simp [F.div, h]

theorem sampleD50_delay : sampleD50.delay = 50 := by decide

theorem sampleD50_offset : sampleD50.offset = 25 := by decide

theorem sampleD100_delay : sampleD100.delay = 100 := by decide

theorem sampleD100_offset : sampleD100.offset = 50 := by decide

/-- The weight computation in closed form: `+inf` at zero delay, otherwise
the finite ratio. -/
theorem sampleWeight_eq (t : NTPResult) :
    sampleWeight t =
      if t.delay = 0 then F.pinf
      else F.fin (1000000 / ((t.delay : ℚ) * t.delay)) := by
  unfold sampleWeight F.ofInt
  rw [F.mul_fin]
  by_cases h : t.delay = 0
  · norm_num [F.div, h]
  · have h2 : ((t.delay : ℚ) * t.delay) ≠ 0 := by
      simpa [mul_self_eq_zero] using h
    rw [F.div_fin _ _ h2]
    simp [h]

/-- The weight is finite exactly when the delay is nonzero. -/
theorem sampleWeight_isFinite (t : NTPResult) :
    (sampleWeight t).isFinite = true ↔ t.delay ≠ 0 := by
  rw [sampleWeight_eq]
  by_cases h : t.delay = 0 <;> simp [h, F.isFinite]

/-- The retention pass agrees with its rational-valued specification view. -/
theorem retainedAux (l : List NTPResult) :
    (l.filterMap fun time =>
        if (sampleWeight time).isFinite then some (F.ofInt time.offset, sampleWeight time)
        else none) =
      ((l.filter fun t => t.delay ≠ 0).map fun t =>
        ((t.offset : ℚ), 1000000 / ((t.delay : ℚ) * t.delay))).map
        fun p => (F.fin p.1, F.fin p.2) := by
  induction l with
  | nil => rfl
  | cons t l ih =>
    by_cases h : t.delay = 0
    · have hw : (sampleWeight t).isFinite = false := by
        rw [sampleWeight_eq, if_pos h]; rfl
      rw [List.filterMap_cons_none (by simp [hw]), List.filter_cons_of_neg (by simp [h]), ih]
    · have hw : (sampleWeight t).isFinite = true := (sampleWeight_isFinite t).mpr h
      rw [List.filterMap_cons_some (b := (F.ofInt t.offset, sampleWeight t)) (by simp [hw]),
        List.filter_cons_of_pos (by simp [h]), List.map_cons, List.map_cons, ih,
        sampleWeight_eq, if_neg h]
      rfl

theorem retainedPairs_eq (rs : List (Option NTPResult)) :
    retainedPairs rs = (retainedQ rs).map fun p => (F.fin p.1, F.fin p.2) := by
  unfold retainedPairs retainedQ
  exact retainedAux _

/-- The accumulating fold of `weighted_mean` on finite inputs computes the
two exact rational sums. -/
theorem fold_fin (l : List (ℚ × ℚ)) : ∀ a b : ℚ,
    ((l.map fun p => (F.fin p.1, F.fin p.2)).foldl
      (fun acc vw => (acc.1.add (vw.1.mul vw.2), acc.2.add vw.2)) (F.fin a, F.fin b)) =
      (F.fin (a + weightedSumQ l), F.fin (b + weightSumQ l)) := by
  induction l with
  | nil => intro a b; simp [weightedSumQ, weightSumQ]
  | cons p l ih =>
    intro a b
    simp only [List.map_cons, List.foldl_cons, F.add_fin, F.mul_fin]
    rw [ih]
    simp only [weightedSumQ, weightSumQ, List.map_cons, List.sum_cons, Prod.mk.injEq, F.fin.injEq]
    constructor <;> ring

theorem zip_proj (pairs : List (F × F)) :
    (pairs.map Prod.fst).zip (pairs.map Prod.snd) = pairs := by
  induction pairs with
  | nil => rfl
  | cons p l ih => simp [ih]

/-- Every retained weight is strictly positive. -/
theorem retainedQ_snd_pos (rs : List (Option NTPResult)) :
    ∀ p ∈ retainedQ rs, 0 < p.2 := by
  intro p hp
  unfold retainedQ at hp
  simp only [List.mem_map, List.mem_filter] at hp
  obtain ⟨t, ⟨_, ht⟩, rfl⟩ := hp
  have hd : t.delay ≠ 0 := by simpa using ht
  have h2 : (0 : ℚ) < (t.delay : ℚ) * t.delay := by
    have : ((t.delay : ℚ)) ≠ 0 := by exact_mod_cast hd
    exact mul_self_pos.mpr this
  positivity

/-- `get_time_millis` in closed form over the rational view: `nan` when
nothing is retained, otherwise the finite weighted mean. -/
theorem getTimeMillis_eq (res : List (String × Option NTPResult)) :
    TestResults.get_time_millis res =
      if retainedQ (res.map Prod.snd) = [] then F.nan
      else F.fin (weightedSumQ (retainedQ (res.map Prod.snd)) /
        weightSumQ (retainedQ (res.map Prod.snd))) := by
  unfold TestResults.get_time_millis weighted_mean
  dsimp only
  rw [retainedPairs_eq, zip_proj, fold_fin]
  by_cases h : retainedQ (res.map Prod.snd) = []
  · simp [h, weightedSumQ, weightSumQ, F.div]
  · have hpos : 0 < weightSumQ (retainedQ (res.map Prod.snd)) := by
      unfold weightSumQ
      apply List.sum_pos
      · intro x hx
        simp only [List.mem_map] at hx
        obtain ⟨p, hp, rfl⟩ := hx
        exact retainedQ_snd_pos _ p hp
      · simpa using h
    dsimp only
    rw [F.div_fin _ _ (by simpa using ne_of_gt hpos)]
    simp [h]

/-- The concrete retained pairs of the delay-50/delay-100 sample set. -/
theorem retainedQ_resC2 : retainedQ (resC2.map Prod.snd) = [((25 : ℚ), 400), ((50 : ℚ), 100)] := by
  unfold retainedQ resC2
  rw [show (List.map Prod.snd [("A", some sampleD50), ("B", some sampleD100)])
      = [some sampleD50, some sampleD100] from rfl]
  rw [show (List.filterMap id [some sampleD50, some sampleD100])
      = [sampleD50, sampleD100] from rfl]
  rw [List.filter_cons_of_pos (by decide), List.filter_cons_of_pos (by decide), List.filter_nil,
    List.map_cons, List.map_cons, List.map_nil]
  norm_num [sampleD50_delay, sampleD50_offset, sampleD100_delay, sampleD100_offset]

/-- C1: for every RoundTripSample the derived delay is the whole-millisecond
value of `(t4 - t1) - (t3 - t2)` (exact nanosecond arithmetic truncated
toward zero at the millisecond), the derived offset is `|delay| / 2`, hence
always non-negative; on the synthetic sample `t1 = 0 ms, t2 = 100 ms,
t3 = 110 ms, t4 = 220 ms` they are 210 ms and 105 ms. -/
theorem C1_delay_offset (r : NTPResult) :
    r.delay = ((r.t4.toNanos - r.t1.toNanos) - (r.t3.toNanos - r.t2.toNanos)).tdiv 1000000
    ∧ r.offset = (|r.delay|).tdiv 2
    ∧ 0 ≤ r.offset
    ∧ sampleC1.delay = 210 ∧ sampleC1.offset = 105 := by
  refine ⟨rfl, ?_, Int.natCast_nonneg _, by decide, by decide⟩
  show ((r.delay.natAbs / 2 : ℕ) : ℤ) = _
  rw [Int.ofNat_tdiv, Int.natCast_natAbs]
  norm_num

/-- C2 (counterexample): the spec's combiner sample A (offset 10 ms,
delay 50 ms) cannot arise from the code: offset is derived as `|delay| / 2`,
so delay 50 ms forces offset 25 ms (realised by `sampleD50`), and no
RoundTripSample has delay 50 and offset 10. -/
theorem C2_counterexample :
    sampleD50.delay = 50 ∧ sampleD50.offset = 25
    ∧ ¬∃ t : NTPResult, t.delay = 50 ∧ t.offset = 10 := by
  refine ⟨by decide, by decide, ?_⟩
  rintro ⟨t, hd, ho⟩
  rw [NTPResult.offset, hd] at ho
  norm_num at ho

/-- C2 (amended): get_time_millis returns the weighted arithmetic mean
`sum(offset_i * w_i) / sum(w_i)` over the present, retained samples with
`w_i = 1e6 / delay_i^2`; for the realisable pair of samples with delays
50 ms and 100 ms (whose offsets are therefore 25 ms and 50 ms) the combined
offset is exactly 30 ms. -/
theorem C2_weighted_mean (res : List (String × Option NTPResult))
    (h : retainedQ (res.map Prod.snd) ≠ []) :
    TestResults.get_time_millis res =
      F.fin (weightedSumQ (retainedQ (res.map Prod.snd)) /
        weightSumQ (retainedQ (res.map Prod.snd)))
    ∧ TestResults.get_time_millis resC2 = F.fin 30 := by
  constructor
  · rw [getTimeMillis_eq, if_neg h]
  · rw [getTimeMillis_eq, retainedQ_resC2, if_neg (by simp)]
    norm_num [weightedSumQ, weightSumQ]

theorem C2_weighted_mean_witness :
    TestResults.get_time_millis resC2 =
      F.fin (weightedSumQ (retainedQ (resC2.map Prod.snd)) /
        weightSumQ (retainedQ (resC2.map Prod.snd)))
    ∧ TestResults.get_time_millis resC2 = F.fin 30 :=
  C2_weighted_mean resC2 (by rw [retainedQ_resC2]; simp)

/-- C4: a present sample is discarded exactly when its delay is 0 ms: the
f64 weight `1e6 / (delay * delay)` is non-finite iff delay = 0, and the
retained list keeps precisely the present samples of nonzero delay (a
negative delay squares to a positive finite weight and is retained). -/
theorem C4_zero_delay_discard (t : NTPResult) (rs : List (Option NTPResult)) :
    ((sampleWeight t).isFinite = false ↔ t.delay = 0)
    ∧ retainedPairs rs =
        ((rs.filterMap id).filter fun u => u.delay ≠ 0).map fun u =>
          (F.ofInt u.offset, sampleWeight u) := by
  constructor
  · by_cases h : t.delay = 0
    · simp only [h, iff_true]
      rw [sampleWeight_eq, if_pos h]; rfl
    · simp only [h, iff_false]
      rw [(sampleWeight_isFinite t).mpr h]
      simp
  · rw [retainedPairs_eq]
    unfold retainedQ
    rw [List.map_map]
    apply List.map_congr_left
    intro u hu
    have hd : u.delay ≠ 0 := by
      rw [List.mem_filter] at hu
      simpa using hu.2
    simp [F.ofInt, sampleWeight_eq, hd]

/-- C5: when nothing is retained — the sample set is empty, every entry is
None, or every present sample has zero delay — get_time_millis is NaN
(0.0/0.0), a non-finite value, never a usable finite offset. -/
theorem C5_no_samples_nan (res : List (String × Option NTPResult))
    (h : res = [] ∨ (∀ p ∈ res, p.2 = none)
      ∨ (∀ t : NTPResult, some t ∈ res.map Prod.snd → t.delay = 0)) :
    TestResults.get_time_millis res = F.nan
    ∧ (TestResults.get_time_millis res).isFinite = false := by
  have hnil : retainedQ (res.map Prod.snd) = [] := by
    rcases h with h | h | h
    · rw [h]; rfl
    · unfold retainedQ
      have hfm : (res.map Prod.snd).filterMap id = [] := by
        rw [List.filterMap_eq_nil_iff]
        intro a ha
        rw [List.mem_map] at ha
        obtain ⟨p, hp, rfl⟩ := ha
        simp [h p hp]
      rw [hfm]; rfl
    · unfold retainedQ
      have hf : ((res.map Prod.snd).filterMap id).filter (fun t => t.delay ≠ 0) = [] := by
        rw [List.filter_eq_nil_iff]
        intro t ht
        have : some t ∈ res.map Prod.snd := by
          rw [List.mem_filterMap] at ht
          obtain ⟨a, ha, rfl⟩ := ht
          exact ha
        simp [h t this]
      rw [hf]; rfl
  rw [getTimeMillis_eq, if_pos hnil]
  exact ⟨rfl, rfl⟩

theorem C5_no_samples_nan_witness :
    TestResults.get_time_millis [] = F.nan
    ∧ (TestResults.get_time_millis []).isFinite = false :=
  C5_no_samples_nan [] (Or.inl rfl)

/-- C10: Rust's saturating f64→i64 cast maps NaN to 0, so when
get_time_millis is non-finite (it is then NaN) the pipeline applies a shift
of exactly 0 ms: the synced clock equals the clock built with offset 0.0. -/
theorem C10_nan_zero_offset (now : DT) (res : List (String × Option NTPResult))
    (h : (TestResults.get_time_millis res).isFinite = false) :
    TestResults.get_time_millis res = F.nan
    ∧ f64_as_i64 (TestResults.get_time_millis res) = 0
    ∧ sync_clock now res = Clock.now_with_offset now (F.fin 0) := by
  have hn : TestResults.get_time_millis res = F.nan := by
    by_cases hr : retainedQ (res.map Prod.snd) = []
    · rw [getTimeMillis_eq, if_pos hr]
    · rw [getTimeMillis_eq, if_neg hr] at h
      simp [F.isFinite] at h
  refine ⟨hn, by rw [hn]; rfl, ?_⟩
  unfold sync_clock Clock.now_with_offset
  rw [hn]
  norm_num [f64_as_i64, truncQ]

theorem testLoop_cons_fatal {probe : String → Except LunartickError NTPResult}
    {s : String} {rest : List String} {e : LunartickError}
    (he : probe s = .error e) (hf : isFatal e = true) :
    testLoop probe (s :: rest) = .error e := by
  conv_lhs => unfold testLoop
  rw [he]
  simp [hf]

theorem testLoop_cons_soft {probe : String → Except LunartickError NTPResult}
    {s : String} {rest : List String} {e : LunartickError}
    (he : probe s = .error e) (hf : isFatal e = false) :
    testLoop probe (s :: rest) = (testLoop probe rest).map (fun ts => none :: ts) := by
  conv_lhs => unfold testLoop
  rw [he]
  simp [hf]

theorem testLoop_cons_ok {probe : String → Except LunartickError NTPResult}
    {s : String} {rest : List String} {r : NTPResult}
    (he : probe s = .ok r) :
    testLoop probe (s :: rest) = (testLoop probe rest).map (fun ts => some r :: ts) := by
  conv_lhs => unfold testLoop
  rw [he]

/-- A fatal probe outcome anywhere in the list makes the loop return an
error (the loop only absorbs non-fatal outcomes before reaching it). -/
theorem testLoop_fatal (probe : String → Except LunartickError NTPResult) :
    ∀ servers : List String,
      (∃ s ∈ servers, ∃ e, probe s = .error e ∧ isFatal e = true) →
      ∃ e, testLoop probe servers = .error e ∧ isFatal e = true := by
  intro servers
  induction servers with
  | nil => rintro ⟨s, hs, -⟩; exact absurd hs (List.not_mem_nil s)
  | cons a rest ih =>
    rintro ⟨s, hs, e, he, hf⟩
    rcases List.mem_cons.mp hs with rfl | hmem
    · exact ⟨e, testLoop_cons_fatal he hf, hf⟩
    · cases hp : probe a with
      | error e2 =>
        cases hf2 : isFatal e2 with
        | true => exact ⟨e2, testLoop_cons_fatal hp hf2, hf2⟩
        | false =>
          obtain ⟨e3, h3, hf3⟩ := ih ⟨s, hmem, e, he, hf⟩
          exact ⟨e3, by rw [testLoop_cons_soft hp hf2, h3]; rfl, hf3⟩
      | ok r =>
        obtain ⟨e3, h3, hf3⟩ := ih ⟨s, hmem, e, he, hf⟩
        exact ⟨e3, by rw [testLoop_cons_ok hp, h3]; rfl, hf3⟩

/-- With no fatal outcome the loop collects every server's outcome as an
option, in order. -/
theorem testLoop_ok (probe : String → Except LunartickError NTPResult) :
    ∀ servers : List String,
      (∀ s ∈ servers, ∀ e, probe s = .error e → isFatal e = false) →
      testLoop probe servers = .ok (servers.map fun s => (probe s).toOption) := by
  intro servers
  induction servers with
  | nil => intro _; rfl
  | cons a rest ih =>
    intro h
    have hrest : ∀ s ∈ rest, ∀ e, probe s = .error e → isFatal e = false :=
      fun s hs => h s (List.mem_cons_of_mem a hs)
    cases hp : probe a with
    | error e =>
      rw [testLoop_cons_soft hp (h a (List.mem_cons_self a rest) e hp), ih hrest]
      simp [Except.map, hp, Except.toOption]
    | ok r =>
      rw [testLoop_cons_ok hp, ih hrest]
      simp [Except.map, hp, Except.toOption]

theorem zip_flip_map (f : String → Option NTPResult) :
    ∀ l : List String, ((l.map f).zip l).map (fun p => (p.2, p.1)) = l.map fun s => (s, f s) := by
  intro l
  induction l with
  | nil => rfl
  | cons a t ih => simp [ih]

/-- `NTPClient::test` in the all-soft case: the probed outcomes, keyed by
server name, collected into the map. -/
theorem test_ok (servers : List String) (probe : String → Except LunartickError NTPResult)
    (h : ∀ s ∈ servers, ∀ e, probe s = .error e → isFatal e = false) :
    NTPClient.test servers probe =
      .ok (fromPairs (servers.map fun s => (s, (probe s).toOption))) := by
  unfold NTPClient.test
  rw [testLoop_ok probe servers h]
  exact congrArg Except.ok
    (congrArg fromPairs (zip_flip_map (fun s => (probe s).toOption) servers))

/-- Inserting a list of distinct-keyed pairs into an accumulator holding
none of those keys just appends them. -/
theorem fromPairs_nodup : ∀ l acc : List (String × Option NTPResult),
    (((acc ++ l).map Prod.fst).Nodup) →
    List.foldl insertPair acc l = acc ++ l := by
  intro l
  induction l with
  | nil => intro acc _; simp
  | cons kv t ih =>
    intro acc hnd
    have hskip : acc.any (fun p => p.1 = kv.1) = false := by
      rw [List.any_eq_false]
      intro p hp
      simp only [decide_eq_true_eq]
      intro hpk
      have h1 : kv.1 ∈ (acc.map Prod.fst) := hpk ▸ List.mem_map_of_mem Prod.fst hp
      have h2 : kv.1 ∈ ((kv :: t).map Prod.fst) := List.mem_cons_self _ _
      rw [List.map_append, List.nodup_append] at hnd
      exact hnd.2.2 h1 h2
    rw [List.foldl_cons, insertPair, hskip]
    simp only [Bool.false_eq_true, if_false]
    have := ih (acc ++ [kv]) (by rwa [← List.append_cons])
    rwa [← List.append_cons] at this

theorem fromPairs_of_nodup (l : List (String × Option NTPResult))
    (h : (l.map Prod.fst).Nodup) :
    fromPairs l = l := by
  unfold fromPairs
  simpa using fromPairs_nodup l [] (by simpa using h)

theorem probeSoft_no_fatal :
    ∀ s ∈ ["a", "b"], ∀ e, probeSoft s = .error e → isFatal e = false := by
  intro s hs e he
  fin_cases hs
  · rw [show probeSoft "a" = .error .ioErr from rfl] at he
    injection he with h
    rw [← h]
    rfl
  · rw [show probeSoft "b" = .ok sampleD50 from rfl] at he
    cases he

/-- C3: a ConnectionError or ParseTimestampError from any server's probe
aborts the whole batch with that error class (no SampleSet is produced),
while a batch whose probes fail only non-fatally returns Ok, with each
failed server degraded to a None entry. -/
theorem C3_fatal_vs_soft (servers : List String)
    (probe : String → Except LunartickError NTPResult) :
    ((∃ s ∈ servers, ∃ e, probe s = .error e ∧ isFatal e = true) →
      ∃ e, NTPClient.test servers probe = .error e ∧ isFatal e = true)
    ∧ ((∀ s ∈ servers, ∀ e, probe s = .error e → isFatal e = false) →
      NTPClient.test servers probe =
        .ok (fromPairs (servers.map fun s => (s, (probe s).toOption)))) := by
  constructor
  · intro hex
    obtain ⟨e, he, hf⟩ := testLoop_fatal probe servers hex
    refine ⟨e, ?_, hf⟩
    unfold NTPClient.test
    rw [he]
    rfl
  · exact test_ok servers probe

theorem C3_fatal_vs_soft_witness :
    (∃ e, NTPClient.test ["a", "b"] probeFatal = .error e ∧ isFatal e = true)
    ∧ NTPClient.test ["a", "b"] probeSoft =
        .ok (fromPairs (["a", "b"].map fun s => (s, (probeSoft s).toOption))) :=
  ⟨(C3_fatal_vs_soft ["a", "b"] probeFatal).1
      ⟨"b", by simp, .connectionError, by rfl, rfl⟩,
    (C3_fatal_vs_soft ["a", "b"] probeSoft).2 probeSoft_no_fatal⟩

/-- C9 (counterexample): with the duplicated server list `["a", "a"]` and a
soft-failing probe the batch succeeds but the HashMap keeps a single entry:
the SampleSet is not in 1:1 correspondence with the requested list. -/
theorem C9_counterexample :
    NTPClient.test ["a", "a"] (fun _ => .error .ioErr) = .ok [("a", none)]
    ∧ ¬ ([(("a" : String), (none : Option NTPResult))].length
        = (["a", "a"] : List String).length) := by
  constructor
  · rfl
  · decide

/-- C9 (amended): the SampleSet has exactly one entry per distinct requested
server name, keyed by that name; for a duplicate-free server list (and no
fatal probe failure) it is in 1:1 correspondence with the list, in order.
Duplicated names collapse into one entry, the last probe outcome winning. -/
theorem C9_entries (servers : List String)
    (probe : String → Except LunartickError NTPResult)
    (hnd : servers.Nodup)
    (h : ∀ s ∈ servers, ∀ e, probe s = .error e → isFatal e = false) :
    NTPClient.test servers probe = .ok (servers.map fun s => (s, (probe s).toOption)) := by
  rw [test_ok servers probe h, fromPairs_of_nodup]
  rw [List.map_map]
  have hid : (Prod.fst ∘ fun s => (s, (probe s).toOption)) = id := rfl
  rw [hid, List.map_id]
  exact hnd

theorem C9_entries_witness :
    NTPClient.test ["a", "b"] probeSoft =
      .ok (["a", "b"].map fun s => (s, (probeSoft s).toOption)) :=
  C9_entries ["a", "b"] probeSoft (by decide) probeSoft_no_fatal

/-- C6: for every unsigned 32-bit (seconds, fraction) pair, converting to an
absolute instant, back to NTP, and to an absolute instant again preserves the
seconds and changes the nanoseconds by at most 1 (the truncation loss of the
fraction codec is bounded by one nanosecond). -/
theorem C6_codec_roundtrip (s f : ℕ) (hs : s < 2 ^ 32) (hf : f < 2 ^ 32) :
    (ntpToUtc (utcToNtp (ntpToUtc ⟨s, f⟩))).secs = (ntpToUtc ⟨s, f⟩).secs
    ∧ (ntpToUtc (utcToNtp (ntpToUtc ⟨s, f⟩))).nanos ≤ (ntpToUtc ⟨s, f⟩).nanos
    ∧ (ntpToUtc ⟨s, f⟩).nanos ≤ (ntpToUtc (utcToNtp (ntpToUtc ⟨s, f⟩))).nanos + 1 := by
  refine ⟨?_, ?_, ?_⟩
  · show (((((s : ℤ) - 2208988800) + 2208988800) % 4294967296).toNat : ℤ) - 2208988800
      = (s : ℤ) - 2208988800
    omega
  · show (min ((f * 1000000000 / 4294967296) * 4294967296 / 1000000000) 4294967295)
        * 1000000000 / 4294967296 ≤ f * 1000000000 / 4294967296
    omega
  · show f * 1000000000 / 4294967296
      ≤ (min ((f * 1000000000 / 4294967296) * 4294967296 / 1000000000) 4294967295)
        * 1000000000 / 4294967296 + 1
    omega

theorem C6_codec_roundtrip_witness :
    (ntpToUtc (utcToNtp (ntpToUtc ⟨3, 5⟩))).secs = (ntpToUtc ⟨3, 5⟩).secs
    ∧ (ntpToUtc (utcToNtp (ntpToUtc ⟨3, 5⟩))).nanos ≤ (ntpToUtc ⟨3, 5⟩).nanos
    ∧ (ntpToUtc ⟨3, 5⟩).nanos ≤ (ntpToUtc (utcToNtp (ntpToUtc ⟨3, 5⟩))).nanos + 1 :=
  C6_codec_roundtrip 3 5 (by norm_num) (by norm_num)

theorem readU32BE_ok : ∀ l : List ℕ, 4 ≤ l.length → ∃ v, readU32BE l = .ok v
  | _ :: _ :: _ :: _ :: _, _ => ⟨_, rfl⟩
  | [], h => absurd h (by norm_num)
  | [_], h => absurd h (by norm_num)
  | [_, _], h => absurd h (by norm_num)
  | [_, _, _], h => absurd h (by norm_num)

/-- Reading a timestamp succeeds whenever the buffer reaches 8 bytes past
the offset. -/
theorem parse_timestamp_ok (m : NTPMessage) (i : ℕ) (h : i + 8 ≤ m.data.length) :
    ∃ t, parse_timestamp m i = .ok t := by
  unfold parse_timestamp
  have h8 : ((m.data.drop i).take 8).length = 8 := by
    simp only [List.length_take, List.length_drop]
    omega
  obtain ⟨v1, hv1⟩ := readU32BE_ok _ (by rw [h8]; norm_num)
  obtain ⟨v2, hv2⟩ := readU32BE_ok (((m.data.drop i).take 8).drop 4)
    (by simp only [List.length_drop, h8]; norm_num)
  rw [hv1, hv2]
  exact ⟨_, rfl⟩

theorem recvInto_length (packet : List ℕ) :
    (recvInto NTPMessage.new packet).data.length = 48 := by
  unfold recvInto NTPMessage.new NTP_MESSAGE_LENGTH
  simp only [List.length_append, List.length_take, List.length_drop, List.length_replicate]
  omega

/-- C7 (counterexample): an empty response datagram — shorter than 48
bytes — does not produce a ParseTimestamp failure: the fixed buffer stays
zero-filled and both timestamp reads succeed with the zero timestamp. -/
theorem C7_counterexample :
    NTPMessage.rx_time (recvInto NTPMessage.new []) = .ok ⟨0, 0⟩
    ∧ NTPMessage.tx_time (recvInto NTPMessage.new []) = .ok ⟨0, 0⟩
    ∧ List.length ([] : List ℕ) < 48 :=
  ⟨rfl, rfl, by norm_num⟩

/-- C7 (amended): the receive buffer is a fixed 48-byte zero-initialised
array, so whatever datagram arrives — in particular one shorter than 48
bytes, which fills only a prefix — the buffer keeps length 48 and extracting
the receive and transmit timestamps at offsets 32 and 40 always succeeds;
decoding never yields a ParseTimestamp error. -/
theorem C7_fixed_buffer (packet : List ℕ) :
    (recvInto NTPMessage.new packet).data.length = 48
    ∧ (∃ t, NTPMessage.rx_time (recvInto NTPMessage.new packet) = .ok t)
    ∧ (∃ t, NTPMessage.tx_time (recvInto NTPMessage.new packet) = .ok t) := by
  have hl := recvInto_length packet
  exact ⟨hl, parse_timestamp_ok _ 32 (by omega), parse_timestamp_ok _ 40 (by omega)⟩

/-- C8: the built client request is exactly 48 bytes; byte 0 is
`0b00_011_011 = 27`, carrying protocol version 3 in bits 3-5 and mode 3
(client) in bits 0-2, and the remaining 47 bytes are all zero. -/
theorem C8_client_request :
    NTPMessage.client.data.length = 48
    ∧ NTPMessage.client.data.headI = 27
    ∧ NTPMessage.client.data.headI / 2 ^ 3 % 2 ^ 3 = 3
    ∧ NTPMessage.client.data.headI % 2 ^ 3 = 3
    ∧ NTPMessage.client.data.tail = List.replicate 47 0 :=
  ⟨by decide, by decide, by decide, by decide, by decide⟩

theorem C10_nan_zero_offset_witness :
    TestResults.get_time_millis [] = F.nan
    ∧ f64_as_i64 (TestResults.get_time_millis []) = 0
    ∧ sync_clock ⟨0, 0⟩ [] = Clock.now_with_offset ⟨0, 0⟩ (F.fin 0) :=
  C10_nan_zero_offset ⟨0, 0⟩ [] (by decide)
